import Mathlib

/-!
# Verification of the wigglyair playback engine (`src/types.rs`)

Shallow embedding of the playback-engine data model and operations:
`Volume`, `SkipSecs`, `Track` / `TrackList` (`add_track`, `add_tracks`,
`find_playing`, `get_start_point`, `get_end_point`, `get_sample_count`,
`audio_params`) and the output-device callback closure of `Player::start`.

Machine integers (`u8`, `u32`, `u64`, `usize`) are modelled as `Nat`;
signed `i16` intermediates as `Int`.  An explicit `% 2 ^ 64` is kept where
the Rust arithmetic can wrap (the `u64` products in `SkipSecs`).  Rust
panics (`assert!`, `unwrap`) are modelled as `none` / `Except.error`.
Strings are modelled as `List Char`.
-/

namespace Wigglyair

/-! ## Volume (`src/types.rs` lines 42-127)

The stored `AtomicU8` is modelled as a `Nat` (the pre-update stored value is
passed in, the post-update stored value is returned).  `Volume::change`
computes `new = clamp(prev as i16 + value, 0, 100)`, stores `new as u8`,
captures `ret = new` inside the `fetch_update` closure, and returns `ret`.
Note that the value returned by `fetch_update` itself (the previous value)
is discarded.  The result pair is `(stored value, returned value)`. -/

def volumeChange (prev : Nat) (value : Int) : Nat × Nat :=
  let new : Int := min (max ((prev : Int) + value) 0) 100
  (new.toNat, new.toNat)

/-- Model of `Volume::up(value)`: `change(value as i16)` with `value : u8`. -/
def volumeUp (prev n : Nat) : Nat × Nat :=
  volumeChange prev (n : Int)

/-- Model of `Volume::down(value)`: `change(-(value as i16))` with `value : u8`. -/
def volumeDown (prev n : Nat) : Nat × Nat :=
  volumeChange prev (-(n : Int))

/-! ## SkipSecs (`src/types.rs` lines 153-185)

`SkipSecs::parse` splits the input on `':'`, asserts exactly two parts,
parses both as `u64` and stores `minutes * 60 + seconds`.
`drain_as_interleaved_samples(rate)` swaps the stored value with `0` and
returns `secs * rate as u64`.  Strings are `List Char`; the panics of
`assert_eq!` and `unwrap_or_log` are modelled as `none`. -/

/-- Rust `str::split` at `':'` on a character list (Rust `split` always yields at
least one part, and empty parts around separators). -/
def splitOnColon : List Char → List (List Char)
  | [] => [[]]
  | c :: rest =>
    let r := splitOnColon rest
    if c = ':' then [] :: r
    else
      match r with
      | [] => [[c]]
      | p :: ps => (c :: p) :: ps

/-- Decimal digit run parser: `none` on an empty run or a non-digit. -/
def parseNatAux : List Char → Nat → Option Nat
  | [], acc => some acc
  | c :: rest, acc =>
    if c.isDigit then parseNatAux rest (acc * 10 + (c.toNat - ('0').toNat))
    else none

/-- Rust `str::parse` into `u64`: optional leading `'+'`, then a non-empty digit
run whose value fits in a `u64`. -/
def parseU64 (cs : List Char) : Option Nat :=
  let ds := match cs with
    | '+' :: rest => rest
    | _ => cs
  match ds with
  | [] => none
  | _ =>
    match parseNatAux ds 0 with
    | some n => if n < 2 ^ 64 then some n else none
    | none => none

/-- Model of `SkipSecs::parse(value)`: the stored `u64`, or `none` where the Rust
code panics (part count differing from 2, unparsable part). -/
def skipSecsParse (value : List Char) : Option Nat :=
  match splitOnColon value with
  | [m, s] => do
    let minutes ← parseU64 m
    let seconds ← parseU64 s
    pure ((minutes * 60 + seconds) % 2 ^ 64)
  | _ => none

/-- Model of `SkipSecs::drain_as_interleaved_samples(rate)` on stored state `st`:
returns `(returned value, new stored state)`. -/
def skipSecsDrain (st rate : Nat) : Nat × Nat :=
  (st * rate % 2 ^ 64, 0)

/-! ## Track and TrackList (`src/types.rs` lines 221-427) -/

/-- Structure `Track` (`src/types.rs` lines 221-231).  `PathBuf` and tag strings are
modelled as `List Char`. -/
structure Track where
  path : List Char
  sampleRate : Nat
  samples : Nat
  channels : Nat
  album : List Char
  albumArtist : List Char
  title : List Char
  track : Nat
  deriving DecidableEq, Repr

/-- Sum `Σ tracks[i].samples` over a track list. -/
def trackSum (l : List Track) : Nat :=
  (l.map Track.samples).sum

/-- Sum of the `samples` of the first `n` tracks. -/
def sumTake (l : List Track) (n : Nat) : Nat :=
  trackSum (l.take n)

/-- Structure `TrackList` (`src/types.rs` lines 294-298). -/
structure TrackList where
  tracks : List Track
  totalSamples : Nat
  deriving DecidableEq, Repr

/-- Model of `TrackList::unsafe_new()`. -/
def TrackList.unsafeNew : TrackList :=
  { tracks := [], totalSamples := 0 }

/-- Model of `TrackList::add_track(track)`. -/
def TrackList.addTrack (tl : TrackList) (t : Track) : TrackList :=
  { tracks := tl.tracks ++ [t], totalSamples := tl.totalSamples + t.samples }

/-- Model of `TrackList::add_tracks(tracks)`. -/
def TrackList.addTracks (tl : TrackList) (ts : List Track) : TrackList :=
  { tracks := tl.tracks ++ ts, totalSamples := tl.totalSamples + trackSum ts }

/-- Conversion `impl Into<TrackList> for Vec<Track>` (`src/types.rs` lines 421-427):
`unsafe_new()` followed by `add_tracks`.  `TrackList::unsafe_from_files`
parses each surviving path into a `Track` (I/O, `Track::from_path`) and
converts the resulting `Vec<Track>` through exactly this impl, with no
format check of its own; we model the conversion, taking the parsed tracks
as input. -/
def trackListFromTracks (ts : List Track) : TrackList :=
  TrackList.unsafeNew.addTracks ts

/-- One mutation of a `TrackList` (`add_track` or `add_tracks`). -/
inductive TLOp where
  | addTrack (t : Track)
  | addTracks (ts : List Track)

/-- Apply one `TLOp`. -/
def TLOp.apply (tl : TrackList) : TLOp → TrackList
  | .addTrack t => tl.addTrack t
  | .addTracks ts => tl.addTracks ts

/-- Apply a sequence of `TLOp`s in order. -/
def applyOps (tl : TrackList) (ops : List TLOp) : TrackList :=
  ops.foldl TLOp.apply tl

/-- The `fold_while` loop of `TrackList::find_playing` (`src/types.rs`
lines 345-360).  The accumulator is `(found, total)`, started at `(0, 0)`;
`i` is the index supplied by `enumerate`.  For each track the loop sets
`total += track.samples` and stops (`Done`) as soon as
`total > current_sample`, else continues with accumulator `(i, total)`. -/
def findPlayingGo (s : Nat) : Nat × Nat → Nat → List Track → Nat × Nat
  | acc, _, [] => acc
  | acc, i, t :: rest =>
    let total := acc.2 + t.samples
    if s < total then (i, total) else findPlayingGo s (i, total) (i + 1) rest

/-- Model of `TrackList::find_playing(current_sample)`. -/
def TrackList.findPlaying (tl : TrackList) (s : Nat) : Nat :=
  (findPlayingGo s (0, 0) 0 tl.tracks).1

/-- Model of `TrackList::get_start_point(index)` (`src/types.rs` lines 362-368):
`self.tracks.iter().take(index).map(|t| t.samples).sum()`.  The body has no
panic path — `take` truncates at the list length — so the result is always
`some`; the `Option` records that the operation completes normally. -/
def TrackList.getStartPoint (tl : TrackList) (index : Nat) : Option Nat :=
  some (sumTake tl.tracks index)

/-- Model of `TrackList::get_sample_count(index)` (`src/types.rs` lines 374-377):
`assert!(index < len)` then `tracks[index].samples`; the assertion panic is
`none`. -/
def TrackList.getSampleCount (tl : TrackList) (index : Nat) : Option Nat :=
  match tl.tracks[index]? with
  | some t => some t.samples
  | none => none

/-- Model of `TrackList::get_end_point(index)` (`src/types.rs` lines 370-372):
`get_start_point(index) + get_sample_count(index)`. -/
def TrackList.getEndPoint (tl : TrackList) (index : Nat) : Option Nat := do
  let s ← tl.getStartPoint index
  let c ← tl.getSampleCount index
  pure (s + c)

/-- Structure `AudioParams` (`src/types.rs` lines 191-195). -/
structure AudioParams where
  channelCount : Nat
  sampleRate : Nat
  deriving DecidableEq, Repr

/-- Model of `TrackList::audio_params()` (`src/types.rs` lines 379-412): collect the
distinct channel counts and sample rates (`HashSet`, modelled as `dedup`;
only its cardinality and unique element are consumed), `assert!` that each
set has exactly one element — a panic, modelled as `Except.error` with the
assertion message — and build the `AudioParams` from the unique values. -/
def TrackList.audioParams (tl : TrackList) : Except (List Char) AudioParams :=
  let channels := (tl.tracks.map Track.channels).dedup
  let sampleRates := (tl.tracks.map Track.sampleRate).dedup
  if hc : channels.length = 1 then
    if hs : sampleRates.length = 1 then
      .ok { channelCount := channels.get ⟨0, by omega⟩,
            sampleRate := sampleRates.get ⟨0, by omega⟩ }
    else .error ("Multiple samples rates found in track list".toList)
  else .error ("Multiple channel counts found in track list".toList)

/-! ## The output callback of `Player::start` (`src/types.rs` lines 520-602)

The closure passed to `run_output_device` is modelled as a step function on
explicit state.  The shared atomic cells (`PlayState`, `Volume`,
`CurrentSample`, the `current_track` `AtomicUsize`) form `PlayerCells`; the
closure-local mutables (`buf`, `initialized`, `is_done`) form `CbLocal`;
the bounded crossbeam receiver is a FIFO `Channel` (pending buffers plus a
sender-disconnected flag).  Audio samples are `Float`.  The real-time
promotion, capacity reservation and logging have no effect on the modelled
state; the best-effort send on the zero-capacity done channel is likewise
unobservable here. -/

structure PlayerCells where
  /-- Cell `PlayState`: `true` represents playing (`is_paused` is the negation). -/
  playing : Bool
  /-- Cell `Volume`: the stored value. -/
  volume : Nat
  /-- Cell `CurrentSample`: the frame counter. -/
  currentSample : Nat
  /-- Cell `current_track`: the index. -/
  currentTrack : Nat
  deriving DecidableEq, Repr

structure CbLocal where
  buf : List Float
  initialized : Bool
  isDone : Bool

structure Channel where
  queue : List (List Float)
  closed : Bool

/-- The `while buf.len() < size` refill loop: non-blocking receive; on
`Ok(samples)` append each sample scaled by `volume / 100.0`; on `Empty`
break; on `Disconnected` set `is_done` and break.  Returns
`(buf, remaining queue, is_done)`. -/
def fillBuf (volume size : Nat) :
    List Float → List (List Float) → Bool → Bool →
      List Float × List (List Float) × Bool
  | buf, queue, closed, isDone =>
    if buf.length < size then
      match queue with
      | [] => if closed then (buf, [], true) else (buf, [], isDone)
      | b :: rest =>
        fillBuf volume size
          (buf ++ b.map (fun smp => smp * (volume.toFloat / 100.0)))
          rest closed isDone
    else (buf, queue, isDone)

/-- One invocation of the output callback on a device slice `data`.
Returns `(slice contents on return, shared cells, closure locals,
channel)`.  Mirrors the closure body: paused/done fast path fills the
slice with zeros and returns; otherwise refill, emit (zero-padding a
partial buffer), drain, advance `current_sample` by
`max / channel_count` (keeping the pre-addition value), and store
`find_playing(previous value)` into `current_track`. -/
def callbackStep (tl : TrackList) (channelCount : Nat) (cells : PlayerCells)
    (loc : CbLocal) (ch : Channel) (data : List Float) :
    List Float × PlayerCells × CbLocal × Channel :=
  if !cells.playing || loc.isDone then
    (List.replicate data.length 0.0, cells, loc, ch)
  else
    let size := data.length
    let volume := cells.volume
    let r := fillBuf volume size loc.buf ch.queue ch.closed loc.isDone
    let buf := r.1
    let queue := r.2.1
    let isDone := r.2.2
    let max := min size buf.length
    let out :=
      if max = size then buf.take size
      else buf.take max ++ List.replicate (size - max) 0.0
    let prev := cells.currentSample
    let track := tl.findPlaying prev
    (out,
     { cells with currentSample := prev + max / channelCount,
                  currentTrack := track },
     { buf := buf.drop max, initialized := true, isDone := isDone },
     { queue := queue, closed := ch.closed })

/-! ## Proof-side specification helpers and concrete fixtures -/

/-- Specification companion of the `find_playing` scan: the least offset
`k` with `total + sumTake l (k + 1) > s`, as a structurally recursive
`Option`. -/
def fpSpec (s : Nat) : Nat → List Track → Option Nat
  | _, [] => none
  | total, t :: rest =>
    if s < total + t.samples then some 0
    else (fpSpec s (total + t.samples) rest).map (· + 1)

/-- Fixture: a 44100 Hz stereo track of 100 frames. -/
def tA : Track :=
  { path := "a".toList, sampleRate := 44100, samples := 100, channels := 2,
    album := [], albumArtist := [], title := [], track := 1 }

/-- Fixture: a 48000 Hz stereo track (format-inconsistent with `tA`). -/
def tB : Track :=
  { path := "b".toList, sampleRate := 48000, samples := 50, channels := 2,
    album := [], albumArtist := [], title := [], track := 2 }

/-- Fixture: a second 44100 Hz stereo track, 40 frames. -/
def tC : Track :=
  { path := "c".toList, sampleRate := 44100, samples := 40, channels := 2,
    album := [], albumArtist := [], title := [], track := 2 }

/-- Fixture: a homogeneous two-track list (samples 100 and 40). -/
def exTL : TrackList := trackListFromTracks [tA, tC]

/-- Fixture: shared cells in the paused state. -/
def exCellsPaused : PlayerCells :=
  { playing := false, volume := 100, currentSample := 7, currentTrack := 0 }

/-- Fixture: shared cells in the playing state. -/
def exCellsPlaying : PlayerCells :=
  { playing := true, volume := 100, currentSample := 0, currentTrack := 0 }

/-- Fixture: closure locals before the first invocation. -/
def exLoc : CbLocal := { buf := [], initialized := false, isDone := false }

/-- Fixture: an open channel with no pending buffers. -/
def exCh : Channel := { queue := [], closed := false }

/-! ## Helper lemmas -/

theorem trackSum_nil : trackSum [] = 0 := rfl

theorem trackSum_cons (t : Track) (l : List Track) :
    trackSum (t :: l) = t.samples + trackSum l := by
  simp [trackSum]

theorem trackSum_append (l₁ l₂ : List Track) :
    trackSum (l₁ ++ l₂) = trackSum l₁ + trackSum l₂ := by
  simp [trackSum]

theorem sumTake_zero (l : List Track) : sumTake l 0 = 0 := rfl

theorem sumTake_nil (n : Nat) : sumTake [] n = 0 := by
  simp [sumTake, trackSum]

theorem sumTake_cons_succ (t : Track) (l : List Track) (n : Nat) :
    sumTake (t :: l) (n + 1) = t.samples + sumTake l n := by
  simp [sumTake, trackSum]

theorem sumTake_mono (l : List Track) :
    ∀ m n : Nat, m ≤ n → sumTake l m ≤ sumTake l n := by
  induction l with
  | nil => intro m n _; simp [sumTake_nil]
  | cons t rest ih =>
    intro m n hmn
    cases m with
    | zero => exact Nat.zero_le _
    | succ m =>
      cases n with
      | zero => omega
      | succ n =>
        rw [sumTake_cons_succ, sumTake_cons_succ]
        exact Nat.add_le_add_left (ih m n (by omega)) _

theorem sumTake_length (l : List Track) : sumTake l l.length = trackSum l := by
  simp [sumTake]

theorem sumTake_succ_get (l : List Track) (i : Nat) (h : i < l.length) :
    sumTake l (i + 1) = sumTake l i + (l.get ⟨i, h⟩).samples := by
  induction l generalizing i with
  | nil => simp at h
  | cons t rest ih =>
    cases i with
    | zero => simp [sumTake_cons_succ, sumTake_zero]
    | succ i =>
      rw [sumTake_cons_succ, sumTake_cons_succ,
        ih i (by simpa using h)]
      simp [Nat.add_assoc]

/-- The `fold_while` loop computes `fpSpec` shifted by the enumeration
offset `i`; when the scan never exits early it finishes on the last
processed index (or the initial accumulator for an empty list). -/
theorem findPlayingGo_eq (s : Nat) :
    ∀ (l : List Track) (j total i : Nat),
      (findPlayingGo s (j, total) i l).1 =
        match fpSpec s total l with
        | some k => i + k
        | none =>
          match l with
          | [] => j
          | _ :: _ => i + l.length - 1 := by
  intro l
  induction l with
  | nil => intro j total i; simp [findPlayingGo, fpSpec]
  | cons t rest ih =>
    intro j total i
    simp only [findPlayingGo, fpSpec]
    by_cases h : s < total + t.samples
    · simp [h]
    · rw [if_neg h, if_neg h, ih i (total + t.samples) (i + 1)]
      cases hfp : fpSpec s (total + t.samples) rest with
      | some k => simp [hfp, Nat.add_assoc, Nat.add_comm 1 k]
      | none =>
        cases rest with
        | nil => simp [hfp]
        | cons u us => simp [hfp]; ring

/-- Characterization of `find_playing` in terms of the specification companion. -/
theorem findPlaying_eq_match (tl : TrackList) (s : Nat) :
    tl.findPlaying s =
      match fpSpec s 0 tl.tracks with
      | some k => k
      | none => tl.tracks.length - 1 := by
  rw [TrackList.findPlaying, findPlayingGo_eq]
  cases hfp : fpSpec s 0 tl.tracks with
  | some k => simp
  | none =>
    cases htl : tl.tracks with
    | nil => simp
    | cons t rest => simp

theorem fpSpec_lt_length (s : Nat) :
    ∀ (l : List Track) (total k : Nat), fpSpec s total l = some k →
      k < l.length := by
  intro l
  induction l with
  | nil => intro total k h; simp [fpSpec] at h
  | cons t rest ih =>
    intro total k h
    simp only [fpSpec] at h
    by_cases hc : s < total + t.samples
    · rw [if_pos hc] at h
      cases h
      simp
    · rw [if_neg hc] at h
      cases hfp : fpSpec s (total + t.samples) rest with
      | none => rw [hfp] at h; simp at h
      | some k₀ =>
        rw [hfp] at h
        simp at h
        have := ih (total + t.samples) k₀ hfp
        simp only [List.length_cons]
        omega

/-- Soundness and leastness of the scan result: the prefix sum through the
found index exceeds `s`, and the prefix sum before it does not. -/
theorem fpSpec_some_spec (s : Nat) :
    ∀ (l : List Track) (total k : Nat), total ≤ s →
      fpSpec s total l = some k →
      s < total + sumTake l (k + 1) ∧ total + sumTake l k ≤ s := by
  intro l
  induction l with
  | nil => intro total k _ h; simp [fpSpec] at h
  | cons t rest ih =>
    intro total k htot h
    simp only [fpSpec] at h
    by_cases hc : s < total + t.samples
    · rw [if_pos hc] at h
      cases h
      constructor
      · rw [sumTake_cons_succ]; omega
      · rw [sumTake_zero]; omega
    · rw [if_neg hc] at h
      cases hfp : fpSpec s (total + t.samples) rest with
      | none => rw [hfp] at h; simp at h
      | some k₀ =>
        rw [hfp] at h
        simp at h
        subst h
        have hrec := ih (total + t.samples) k₀ (by omega) hfp
        constructor
        · rw [sumTake_cons_succ]; omega
        · rw [sumTake_cons_succ]; omega

/-- Converse: the least offset whose prefix sum exceeds `s` is the scan
result. -/
theorem fpSpec_some_of (s : Nat) :
    ∀ (l : List Track) (total k : Nat), k < l.length →
      s < total + sumTake l (k + 1) → total + sumTake l k ≤ s →
      fpSpec s total l = some k := by
  intro l
  induction l with
  | nil => intro total k h; simp at h
  | cons t rest ih =>
    intro total k hk hlt hle
    simp only [fpSpec]
    cases k with
    | zero =>
      rw [sumTake_cons_succ, sumTake_zero] at hlt
      rw [if_pos (by omega)]
    | succ k =>
      rw [sumTake_cons_succ] at hle hlt
      rw [if_neg (by omega)]
      rw [ih (total + t.samples) k (by simpa using hk) (by omega) (by omega)]
      rfl

/-- If `s` is at or past the whole running total, the scan never exits
early. -/
theorem fpSpec_none_of (s : Nat) :
    ∀ (l : List Track) (total : Nat), total + trackSum l ≤ s →
      fpSpec s total l = none := by
  intro l
  induction l with
  | nil => intro total _; rfl
  | cons t rest ih =>
    intro total h
    rw [trackSum_cons] at h
    simp only [fpSpec]
    rw [if_neg (by omega), ih (total + t.samples) (by omega)]
    rfl

/-- If `s` is short of the whole running total, the scan exits early. -/
theorem fpSpec_isSome_of (s : Nat) :
    ∀ (l : List Track) (total : Nat), total ≤ s → s < total + trackSum l →
      (fpSpec s total l).isSome := by
  intro l
  induction l with
  | nil => intro total h₁ h₂; rw [trackSum_nil] at h₂; omega
  | cons t rest ih =>
    intro total h₁ h₂
    rw [trackSum_cons] at h₂
    simp only [fpSpec]
    by_cases hc : s < total + t.samples
    · rw [if_pos hc]; rfl
    · rw [if_neg hc]
      have := ih (total + t.samples) (by omega) (by omega)
      cases hfp : fpSpec s (total + t.samples) rest with
      | none => rw [hfp] at this; simp at this
      | some k => rfl

/-- The `find_playing` result for an in-range `s` is the least index whose
running sum exceeds `s`. -/
theorem findPlaying_eq_of (tl : TrackList) (s i : Nat)
    (hi : i < tl.tracks.length)
    (hlt : s < sumTake tl.tracks (i + 1)) (hle : sumTake tl.tracks i ≤ s) :
    tl.findPlaying s = i := by
  rw [findPlaying_eq_match,
    fpSpec_some_of s tl.tracks 0 i hi (by omega) (by omega)]

/-- A list with two distinct members dedups to more than one element. -/
theorem dedup_length_ne_one {α : Type} [DecidableEq α] (l : List α) (a b : α)
    (ha : a ∈ l) (hb : b ∈ l) (hab : a ≠ b) : l.dedup.length ≠ 1 := by
  intro hlen
  obtain ⟨x, hx⟩ := List.length_eq_one.mp hlen
  have ha' : a ∈ l.dedup := List.mem_dedup.mpr ha
  have hb' : b ∈ l.dedup := List.mem_dedup.mpr hb
  rw [hx] at ha' hb'
  simp at ha' hb'
  exact hab (ha'.trans hb'.symm)

/-- A single `TrackList` mutation preserves the cached-total invariant. -/
theorem TLOp.apply_preserves_total (tl : TrackList) (op : TLOp)
    (h : tl.totalSamples = trackSum tl.tracks) :
    (TLOp.apply tl op).totalSamples = trackSum (TLOp.apply tl op).tracks := by
  cases op with
  | addTrack t =>
    simp [TLOp.apply, TrackList.addTrack, trackSum_append, trackSum_cons,
      trackSum_nil, h]
  | addTracks ts =>
    simp [TLOp.apply, TrackList.addTracks, trackSum_append, h]

/-- A sequence of `TrackList` mutations preserves the cached-total
invariant. -/
theorem applyOps_preserves_total (ops : List TLOp) :
    ∀ tl : TrackList, tl.totalSamples = trackSum tl.tracks →
      (applyOps tl ops).totalSamples = trackSum (applyOps tl ops).tracks := by
  induction ops with
  | nil => intro tl h; simpa [applyOps] using h
  | cons op rest ih =>
    intro tl h
    simp only [applyOps, List.foldl_cons] at ih ⊢
    exact ih _ (TLOp.apply_preserves_total tl op h)

/-! ## Claim theorems -/

/-- C1 — the claim says `Volume::up(n)` / `Volume::down(n)` return the
value held before the update.  The code contradicts its own doc comments
("Returns the *previous* volume"): `Volume::change` captures `ret = new`
inside the `fetch_update` closure and discards the previous value that
`fetch_update` itself returns.  Evaluated at the failing input `v₀ = 50`,
`n = 10`: `up` stores 60 and returns 60 (not 50), `down` stores 40 and
returns 40 (not 50). -/
theorem volume_change_returns_post_update_value :
    volumeUp 50 10 = (60, 60) ∧ (volumeUp 50 10).2 ≠ 50 ∧
    volumeDown 50 10 = (40, 40) ∧ (volumeDown 50 10).2 ≠ 50 := by
  decide

/-- C5: for a `Volume` initialized at `v₀ ∈ [0,100]` and any `u8` amount
`n`, after `up(n)` or `down(n)` the stored value lies in `[0,100]`;
`up(n)` with `v₀ + n > 100` stores exactly `100`, and `down(n)` with
`v₀ < n` stores exactly `0` (saturating, not wrapping). -/
theorem volume_clamp_and_saturate (v n : Nat) (hv : v ≤ 100) (hn : n ≤ 255) :
    (volumeUp v n).1 ≤ 100 ∧ (volumeDown v n).1 ≤ 100 ∧
    (100 < v + n → (volumeUp v n).1 = 100) ∧
    (v < n → (volumeDown v n).1 = 0) := by
  refine ⟨?_, ?_, ?_, ?_⟩ <;>
    simp only [volumeUp, volumeDown, volumeChange] <;> omega

/-- Witness for C5 at `v₀ = 95, n = 10` (up saturates at 100) and
`v₀ = 5, n = 10` (down saturates at 0). -/
theorem volume_clamp_and_saturate_witness :
    (volumeUp 95 10).1 = 100 ∧ (volumeDown 5 10).1 = 0 :=
  ⟨(volume_clamp_and_saturate 95 10 (by decide) (by decide)).2.2.1 (by decide),
   (volume_clamp_and_saturate 5 10 (by decide) (by decide)).2.2.2 (by decide)⟩

/-- C7: for a well-formed time string `"MM:SS"` (split on `':'` into two
parseable fields) and any sample rate `r`, `SkipSecs::parse` stores
`MM*60 + SS`, the first `drain_as_interleaved_samples(r)` returns
`(MM*60 + SS) * r`, and a second drain returns `0` (the stored value was
swapped to `0`). -/
theorem skip_secs_parse_drain_round_trip (value mcs scs : List Char)
    (mm ss r : Nat) (hsplit : splitOnColon value = [mcs, scs])
    (hm : parseU64 mcs = some mm) (hsec : parseU64 scs = some ss)
    (h64 : mm * 60 + ss < 2 ^ 64) (hp : (mm * 60 + ss) * r < 2 ^ 64) :
    skipSecsParse value = some (mm * 60 + ss) ∧
    (skipSecsDrain (mm * 60 + ss) r).1 = (mm * 60 + ss) * r ∧
    (skipSecsDrain (skipSecsDrain (mm * 60 + ss) r).2 r).1 = 0 := by
  refine ⟨?_, ?_, ?_⟩
  · simp [skipSecsParse, hsplit, hm, hsec]
    omega
  · simp only [skipSecsDrain]
    omega
  · simp [skipSecsDrain]

/-- Witness for C7 at `"03:25"` with `r = 44100`. -/
theorem skip_secs_parse_drain_round_trip_witness :
    skipSecsParse ("03:25").toList = some (3 * 60 + 25) ∧
    (skipSecsDrain (3 * 60 + 25) 44100).1 = (3 * 60 + 25) * 44100 ∧
    (skipSecsDrain (skipSecsDrain (3 * 60 + 25) 44100).2 44100).1 = 0 :=
  skip_secs_parse_drain_round_trip ("03:25").toList ("03").toList
    ("25").toList 3 25 44100 (by decide) (by decide) (by decide) (by decide)
    (by decide)

/-- C2 counterexample — the claim says a `TrackList` built from files with
disagreeing formats fails with `InconsistentFormat` at construction time.
In the code, construction performs no format check: from two tracks with
sample rates 44100 and 48000 it succeeds and returns the full list; the
mismatch only surfaces in `audio_params()`, as an assertion failure. -/
theorem trackList_mixed_format_construction_succeeds :
    (trackListFromTracks [tA, tB]).tracks = [tA, tB] ∧
    (trackListFromTracks [tA, tB]).audioParams =
      .error ("Multiple samples rates found in track list".toList) := by
  constructor
  · rfl
  · rfl

/-- C2 (amended): constructing a `TrackList` from format-inconsistent
files succeeds and keeps every track; the inconsistency is detected when
`audio_params()` is invoked — it fails (assertion panic) rather than
returning parameters.  In the player flow `audio_params()` runs before
any thread is spawned. -/
theorem trackList_mixed_format_detected_at_audio_params (ts : List Track)
    (t1 t2 : Track) (h1 : t1 ∈ ts) (h2 : t2 ∈ ts)
    (hne : t1.sampleRate ≠ t2.sampleRate ∨ t1.channels ≠ t2.channels) :
    (trackListFromTracks ts).tracks = ts ∧
    ∀ p, (trackListFromTracks ts).audioParams ≠ .ok p := by
  have htracks : (trackListFromTracks ts).tracks = ts := by
    simp [trackListFromTracks, TrackList.unsafeNew, TrackList.addTracks]
  refine ⟨htracks, ?_⟩
  intro p hok
  simp only [TrackList.audioParams, htracks] at hok
  split_ifs at hok with hc hrate
  · cases hne with
    | inl hsr =>
      exact dedup_length_ne_one (ts.map Track.sampleRate) _ _
        (List.mem_map_of_mem Track.sampleRate h1)
        (List.mem_map_of_mem Track.sampleRate h2) hsr hrate
    | inr hch =>
      exact dedup_length_ne_one (ts.map Track.channels) _ _
        (List.mem_map_of_mem Track.channels h1)
        (List.mem_map_of_mem Track.channels h2) hch hc

/-- Witness for C2's amended claim on the concrete mixed-rate pair. -/
theorem trackList_mixed_format_detected_at_audio_params_witness :
    (trackListFromTracks [tA, tB]).tracks = [tA, tB] ∧
    (trackListFromTracks [tA, tB]).audioParams ≠
      .ok { channelCount := 2, sampleRate := 44100 } :=
  ⟨(trackList_mixed_format_detected_at_audio_params [tA, tB] tA tB
      (by decide) (by decide) (Or.inl (by decide))).1,
   (trackList_mixed_format_detected_at_audio_params [tA, tB] tA tB
      (by decide) (by decide) (Or.inl (by decide))).2 _⟩

/-- C6: starting from the empty `TrackList` of `unsafe_new()`, after any
sequence of `add_track` / `add_tracks` calls the cached `total_samples`
equals the sum of `samples` over all tracks in the list. -/
theorem trackList_total_samples_invariant (ops : List TLOp) :
    (applyOps TrackList.unsafeNew ops).totalSamples =
      trackSum (applyOps TrackList.unsafeNew ops).tracks :=
  applyOps_preserves_total ops TrackList.unsafeNew rfl

/-- C3: on a `TrackList` whose tracks all have `samples > 0`, for `s`
within the playlist, `find_playing(s)` is the smallest index whose running
sum `Σ_{k≤i} samples` exceeds `s`; at the boundary `B_i = Σ_{k≤i} samples`,
`find_playing(B_i − 1) = i`, and `find_playing(B_i) = i + 1` whenever
`i + 1 < tracks.len()`. -/
theorem find_playing_least_and_boundary (tl : TrackList)
    (hpos : ∀ t ∈ tl.tracks, 0 < t.samples) (i : Nat)
    (hi : i < tl.tracks.length) (s : Nat) (hs : s < trackSum tl.tracks) :
    (s < sumTake tl.tracks (tl.findPlaying s + 1) ∧
      ∀ j, s < sumTake tl.tracks (j + 1) → tl.findPlaying s ≤ j) ∧
    tl.findPlaying (sumTake tl.tracks (i + 1) - 1) = i ∧
    (i + 1 < tl.tracks.length →
      tl.findPlaying (sumTake tl.tracks (i + 1)) = i + 1) := by
  have hstep := sumTake_succ_get tl.tracks i hi
  have hposi : 0 < (tl.tracks.get ⟨i, hi⟩).samples :=
    hpos _ (List.get_mem tl.tracks i hi)
  refine ⟨?_, ?_, ?_⟩
  · have hsome := fpSpec_isSome_of s tl.tracks 0 (Nat.zero_le _)
      (by omega)
    obtain ⟨k, hk⟩ := Option.isSome_iff_exists.mp hsome
    have hspec := fpSpec_some_spec s tl.tracks 0 k (Nat.zero_le _) hk
    have hfind : tl.findPlaying s = k := by
      rw [findPlaying_eq_match, hk]
    rw [hfind]
    refine ⟨by omega, ?_⟩
    intro j hj
    by_contra hcon
    push_neg at hcon
    have := sumTake_mono tl.tracks (j + 1) k (by omega)
    omega
  · exact findPlaying_eq_of tl _ i hi (by omega) (by omega)
  · intro hi1
    have hstep1 := sumTake_succ_get tl.tracks (i + 1) hi1
    have hposi1 : 0 < (tl.tracks.get ⟨i + 1, hi1⟩).samples :=
      hpos _ (List.get_mem tl.tracks (i + 1) hi1)
    exact findPlaying_eq_of tl _ (i + 1) hi1 (by omega) (by omega)

/-- Witness for C3 on the two-track fixture (samples 100 and 40):
`find_playing(99) = 0` and `find_playing(100) = 1`. -/
theorem find_playing_least_and_boundary_witness :
    exTL.findPlaying (sumTake exTL.tracks 1 - 1) = 0 ∧
    exTL.findPlaying (sumTake exTL.tracks 1) = 1 :=
  have h := find_playing_least_and_boundary exTL (by decide) 0 (by decide) 5
    (by decide)
  ⟨h.2.1, h.2.2 (by decide)⟩

/-- C8: `find_playing` is monotone — for all sample positions
`s₁ ≤ s₂`, `find_playing(s₁) ≤ find_playing(s₂)` on every `TrackList`. -/
theorem find_playing_monotone (tl : TrackList) (s₁ s₂ : Nat)
    (h : s₁ ≤ s₂) : tl.findPlaying s₁ ≤ tl.findPlaying s₂ := by
  rw [findPlaying_eq_match, findPlaying_eq_match]
  cases hfp2 : fpSpec s₂ 0 tl.tracks with
  | none =>
    cases hfp1 : fpSpec s₁ 0 tl.tracks with
    | none => exact Nat.le_refl _
    | some k₁ =>
      have := fpSpec_lt_length s₁ tl.tracks 0 k₁ hfp1
      show k₁ ≤ tl.tracks.length - 1
      omega
  | some k₂ =>
    have hspec2 := fpSpec_some_spec s₂ tl.tracks 0 k₂ (Nat.zero_le _) hfp2
    have hk2len := fpSpec_lt_length s₂ tl.tracks 0 k₂ hfp2
    have hmono := sumTake_mono tl.tracks (k₂ + 1) tl.tracks.length
      (by omega)
    rw [sumTake_length] at hmono
    have hsome := fpSpec_isSome_of s₁ tl.tracks 0 (Nat.zero_le _) (by omega)
    obtain ⟨k₁, hk1⟩ := Option.isSome_iff_exists.mp hsome
    rw [hk1]
    show k₁ ≤ k₂
    have hspec1 := fpSpec_some_spec s₁ tl.tracks 0 k₁ (Nat.zero_le _) hk1
    by_contra hcon
    push_neg at hcon
    have := sumTake_mono tl.tracks (k₂ + 1) k₁ (by omega)
    omega

/-- Witness for C8 on the two-track fixture at `s₁ = 10 ≤ s₂ = 120`. -/
theorem find_playing_monotone_witness :
    exTL.findPlaying 10 ≤ exTL.findPlaying 120 :=
  find_playing_monotone exTL 10 120 (by decide)

/-- C9 counterexample — the claim says an out-of-bounds index is a program
error for all three accessors.  `get_start_point` has no bounds check:
`take(index)` truncates, so on a one-track list (100 samples) index `1`
(equal to the length) returns `some 100` instead of failing. -/
theorem get_start_point_out_of_bounds_returns_value :
    (trackListFromTracks [tA]).tracks.length ≤ 1 ∧
    (trackListFromTracks [tA]).getStartPoint 1 = some 100 := by
  decide

/-- C9 (amended): for `i < tracks.len()`, `get_start_point(i) = Σ_{k<i}
samples`, `get_sample_count(i) = samples[i]` and `get_end_point(i)` is
their sum; for `i ≥ tracks.len()`, `get_sample_count` and `get_end_point`
fail (assertion), but `get_start_point` completes and returns the sum of
all samples. -/
theorem track_index_accessors_spec (tl : TrackList) (i : Nat) :
    (∀ h : i < tl.tracks.length,
      tl.getStartPoint i = some (sumTake tl.tracks i) ∧
      tl.getSampleCount i = some (tl.tracks[i]).samples ∧
      tl.getEndPoint i =
        some (sumTake tl.tracks i + (tl.tracks[i]).samples)) ∧
    (tl.tracks.length ≤ i →
      tl.getStartPoint i = some (trackSum tl.tracks) ∧
      tl.getSampleCount i = none ∧
      tl.getEndPoint i = none) := by
  constructor
  · intro h
    have hget : tl.tracks[i]? = some tl.tracks[i] :=
      List.getElem?_eq_getElem h
    refine ⟨rfl, ?_, ?_⟩
    · simp [TrackList.getSampleCount, hget]
    · simp [TrackList.getEndPoint, TrackList.getStartPoint,
        TrackList.getSampleCount, hget]
  · intro h
    have hget : tl.tracks[i]? = none := List.getElem?_eq_none h
    refine ⟨?_, ?_, ?_⟩
    · simp [TrackList.getStartPoint, sumTake, List.take_of_length_le h]
    · simp [TrackList.getSampleCount, hget]
    · simp [TrackList.getEndPoint, TrackList.getStartPoint,
        TrackList.getSampleCount, hget]

/-- Witness for C9's amended claim at index 1 of a one-track list. -/
theorem track_index_accessors_spec_witness :
    (trackListFromTracks [tA]).getStartPoint 1 =
      some (trackSum (trackListFromTracks [tA]).tracks) ∧
    (trackListFromTracks [tA]).getSampleCount 1 = none ∧
    (trackListFromTracks [tA]).getEndPoint 1 = none :=
  (track_index_accessors_spec (trackListFromTracks [tA]) 1).2 (by decide)

/-- C10: `find_playing` is total and in range — on a non-empty list every
`s` yields an index strictly below `tracks.len()`, with `s` at or past the
total yielding the last index `tracks.len() − 1`; on an empty list it
yields `0`; hence the index the output callback stores into
`current_track` is a valid track index for a non-empty list. -/
theorem find_playing_total_and_in_range (tl : TrackList) (s : Nat) :
    (tl.tracks ≠ [] → tl.findPlaying s < tl.tracks.length) ∧
    (trackSum tl.tracks ≤ s → tl.tracks ≠ [] →
      tl.findPlaying s = tl.tracks.length - 1) ∧
    (tl.tracks = [] → tl.findPlaying s = 0) ∧
    ∀ (channelCount : Nat) (cells : PlayerCells) (loc : CbLocal)
      (ch : Channel) (data : List Float),
      tl.tracks ≠ [] → cells.playing = true → loc.isDone = false →
      ((callbackStep tl channelCount cells loc ch data).2.1).currentTrack <
        tl.tracks.length := by
  have hrange : ∀ s' : Nat, tl.tracks ≠ [] →
      tl.findPlaying s' < tl.tracks.length := by
    intro s' hne
    rw [findPlaying_eq_match]
    cases hfp : fpSpec s' 0 tl.tracks with
    | some k => exact fpSpec_lt_length s' tl.tracks 0 k hfp
    | none =>
      show tl.tracks.length - 1 < tl.tracks.length
      have hpos : 0 < tl.tracks.length := List.length_pos.mpr hne
      omega
  refine ⟨hrange s, ?_, ?_, ?_⟩
  · intro hle _
    rw [findPlaying_eq_match, fpSpec_none_of s tl.tracks 0 (by omega)]
  · intro h
    rw [TrackList.findPlaying, h]
    rfl
  · intro channelCount cells loc ch data hne hplay hdone
    simp only [callbackStep, hplay, hdone, Bool.not_true, Bool.false_or,
      Bool.false_eq_true, if_false]
    exact hrange cells.currentSample hne

/-- Witness for C10: past-the-end lookup on the two-track fixture, and the
callback invocation on it stores a valid index. -/
theorem find_playing_total_and_in_range_witness :
    exTL.findPlaying 1000 = exTL.tracks.length - 1 ∧
    ((callbackStep exTL 2 exCellsPlaying exLoc exCh
        [1.0, 2.0]).2.1).currentTrack < exTL.tracks.length :=
  ⟨(find_playing_total_and_in_range exTL 1000).2.1 (by decide) (by decide),
   (find_playing_total_and_in_range exTL 1000).2.2.2 2 exCellsPlaying
     exLoc exCh [1.0, 2.0] (by decide) rfl rfl⟩

/-- C4: when `play_state.is_paused()` holds throughout a callback
invocation, the callback writes only zeros into the device slice and
leaves `current_sample` — and every other piece of shared, local and
channel state — unchanged. -/
theorem callback_paused_writes_zeros_and_preserves_state (tl : TrackList)
    (channelCount : Nat) (cells : PlayerCells) (loc : CbLocal)
    (ch : Channel) (data : List Float) (hp : cells.playing = false) :
    callbackStep tl channelCount cells loc ch data =
      (List.replicate data.length 0.0, cells, loc, ch) := by
  simp [callbackStep, hp]

/-- Witness for C4: a paused invocation on a concrete two-sample slice. -/
theorem callback_paused_writes_zeros_and_preserves_state_witness :
    callbackStep exTL 2 exCellsPaused exLoc exCh [1.5, 2.5] =
      ([0.0, 0.0], exCellsPaused, exLoc, exCh) := by
  have h := callback_paused_writes_zeros_and_preserves_state exTL 2
    exCellsPaused exLoc exCh [1.5, 2.5] rfl
  simpa using h

end Wigglyair
